import Mathlib

set_option maxHeartbeats 1000000
set_option maxRecDepth 8192

/-!
Shallow embedding of the declaration-resolution and route-enumeration core of
the zig-docs-astro repository (src/lib/wasmUtils.ts, src/lib/docParser.ts,
src/lib/pathGenerator.ts, src/lib/constants.ts), together with proofs of the
specification claims about it.

Conventions of the embedding:
* WASM declaration indices are `Nat`; the "not found" sentinel 0xffffffff is
  `sentinel`.
* The opaque WASM export surface (`categorize_decl`, `get_aliasee`, ...) is a
  `Store` of pure functions: every export is a synchronous, side-effect-free
  read on the in-memory store.  String-returning exports are modelled as
  returning the decoded string directly.
* The cheerio-based `parseHTMLToCode` helper is an opaque HTML-to-text
  transform and is a `Store` field.
* JavaScript's cooperative async interleaving is linearized: `Promise.all`
  over a list of work items is modelled as a left fold.  The visited-set
  check-and-insert runs synchronously before any `await` in the source, so
  the fold is a faithful linearization for the properties proved here.
* Unbounded source-level loops/recursion (the alias `while` loop, the
  recursive route traversal) take an explicit fuel argument; running out of
  fuel is observable (`Option.none` for the alias loop, identity for the
  traversal) and is distinguished from normal exits.
-/

namespace ZigDocs

/-- 0xffffffff, the store's "not found" / invalid-index sentinel. -/
def sentinel : Nat := 0xffffffff

/-! ## Category constants (src/lib/constants.ts) -/

def CAT_namespace : Nat := 0
def CAT_container : Nat := 1
def CAT_global_variable : Nat := 2
def CAT_function : Nat := 3
def CAT_primitive : Nat := 4
def CAT_error_set : Nat := 5
def CAT_global_const : Nat := 6
def CAT_alias : Nat := 7
def CAT_type : Nat := 8
def CAT_type_type : Nat := 9
def CAT_type_function : Nat := 10

/-! ## JavaScript string splitting / joining

`fqn.split(".")` and `parts.join("/")` are modelled on the character list of
the string.  `splitOnChar` never returns `[]` (JS `split` always returns at
least one piece), which `jsSplit` exposes by returning the head piece and the
tail pieces separately. -/

/-- `s.split(c)` on character lists: head piece plus remaining pieces. -/
def jsSplitAux (c : Char) : List Char → List Char × List (List Char)
  | [] => ([], [])
  | x :: xs =>
    let r := jsSplitAux c xs
    if x = c then ([], r.1 :: r.2) else (x :: r.1, r.2)

/-- `s.split(c)` as a (nonempty) list of pieces, given as head and tail. -/
def jsSplit (c : Char) (s : String) : List Char × List (List Char) :=
  jsSplitAux c s.toList

/-- `pieces.join(c)` on character lists. -/
def joinChar (c : Char) : List (List Char) → List Char
  | [] => []
  | [p] => p
  | p :: ps => p ++ c :: joinChar c ps

/-! ## The Declaration Store capability

One pure function per consumed WASM export (§6 of the design: all operations
are synchronous side-effect-free reads), plus the opaque HTML-to-text
transform used by `docParser.ts`. -/

structure Store where
  /-- `categorize_decl(idx, 0)`. -/
  categorize : Nat → Nat
  /-- `get_aliasee(idx)`. -/
  getAliasee : Nat → Nat
  /-- `decl_name(idx)` (decoded). -/
  declName : Nat → String
  /-- `decl_fqn(idx)` (decoded). -/
  declFqn : Nat → String
  /-- `decl_category_name(idx)`. -/
  declCategoryName : Nat → String
  /-- `decl_file_path(idx)`. -/
  declFilePath : Nat → String
  /-- `decl_docs_html(idx, short)`. -/
  declDocsHtml : Nat → Bool → String
  /-- `decl_source_html(idx)`. -/
  declSourceHtml : Nat → String
  /-- `decl_type_html(idx)`. -/
  declTypeHtml : Nat → String
  /-- `decl_fn_proto_html(idx, short)`. -/
  declFnProtoHtml : Nat → Bool → String
  /-- `decl_doctest_html(idx)`. -/
  declDoctestHtml : Nat → String
  /-- `decl_params(idx)` (unwrapped u32 slice). -/
  declParams : Nat → List Nat
  /-- `decl_fields(idx)` (unwrapped u32 slice). -/
  declFields : Nat → List Nat
  /-- `namespace_members(idx, includePrivate)` (unwrapped u32 slice). -/
  namespaceMembers : Nat → Bool → List Nat
  /-- `fn_error_set(idx)`: a 64-bit node id; `0` means "no error set". -/
  fnErrorSet : Nat → Nat
  /-- `fn_error_set_decl(idx, node)`. -/
  fnErrorSetDecl : Nat → Nat → Nat
  /-- `error_set_node_list(baseDecl, node)` (unwrapped u64 slice). -/
  errorSetNodeList : Nat → Nat → List Nat
  /-- `decl_error_set(idx)` (unwrapped u64 slice). -/
  declErrorSet : Nat → List Nat
  /-- `find_decl()` after `setInputString(fqn)`; returns `sentinel` if absent. -/
  findDecl : String → Nat
  /-- `module_name(i)` (decoded); `""` is the end-of-modules sentinel
  (a zero length is reported exactly for the empty name). -/
  moduleName : Nat → String
  /-- `find_module_root(i)`. -/
  findModuleRoot : Nat → Nat
  /-- cheerio-based `parseHTMLToCode`: opaque HTML-to-text transform. -/
  parseHTML : String → String

/-! ## Alias Resolver (docParser.ts, the `while (category === CAT_alias)` loop)

The loop guard and the two break conditions are exactly those of the source:
stop when the category is no longer Alias, or when the aliasee is the
sentinel, or when the aliasee equals the current handle.  `fuel` bounds the
number of loop iterations the model is allowed to unfold; `none` means the
source loop is still running after that many iterations (the source itself
imposes no iteration bound). -/

def resolveLoop (st : Store) (fuel : Nat) (target cat : Nat) : Option (Nat × Nat) :=
  if cat = CAT_alias then
    let next := st.getAliasee target
    if next = sentinel ∨ next = target then some (target, cat)
    else
      match fuel with
      | 0 => none
      | f + 1 => resolveLoop st f next (st.categorize next)
  else some (target, cat)

/-- `fullyQualifiedName` from docParser.ts (guards the sentinel index). -/
def fullyQualifiedName (st : Store) (declIndex : Nat) : String :=
  if declIndex = sentinel then "[Invalid Index]" else st.declFqn declIndex

/-- `declIndexName` from docParser.ts (guards the sentinel index). -/
def declIndexName (st : Store) (declIndex : Nat) : String :=
  if declIndex = sentinel then "[Invalid Index]" else st.declName declIndex

/-! ## Category Dispatcher & Record Assembler (`getDeclData`) -/

/-- The assembled declaration record (the `data` object built by
`getDeclData`).  Fields that the source only assigns in some switch branches
are `Option`s; the four arrays are defaulted to `[]` by the trailing
`?? []` normalization in the source. -/
structure DeclData where
  index : Nat
  originalIndex : Nat
  name : String
  fqn : String
  targetFqn : String
  category : Nat
  categoryName : String
  filePath : String
  docs : String
  sourceHtml : String
  typeHtml : String
  isAlias : Bool
  protoHtml : Option String
  doctestHtml : Option String
  errorSetBaseDecl : Option Nat
  params : List Nat
  fields : List Nat
  members : List Nat
  errorSetNodes : List Nat
  deriving DecidableEq

/-- `getDeclData` for an already-looked-up declaration index (the common part
of the string and number identifier paths).  `none` models a thrown error or
an alias loop the model's fuel could not unfold. -/
def getDeclDataAt (st : Store) (ifuel : Nat) (declIndex : Nat) : Option DeclData :=
  if declIndex = sentinel then none
  else
    match resolveLoop st ifuel declIndex (st.categorize declIndex) with
    | none => none
    | some (targetIndex, category) =>
      let isAlias : Bool := decide (st.categorize declIndex = CAT_alias)
      let fnLike := category = CAT_function ∨ category = CAT_type_function
      let containerLike :=
        category = CAT_container ∨ category = CAT_type ∨ category = CAT_namespace
      let errInfo : Option Nat × List Nat :=
        if fnLike then
          let errorSetNode := st.fnErrorSet targetIndex
          if errorSetNode ≠ 0 then
            let base := st.fnErrorSetDecl targetIndex errorSetNode
            (some base,
              if base ≠ sentinel then st.errorSetNodeList base errorSetNode else [])
          else (none, [])
        else if category = CAT_error_set then (none, st.declErrorSet targetIndex)
        else (none, [])
      some
        { index := targetIndex
          originalIndex := declIndex
          name := declIndexName st declIndex
          fqn := fullyQualifiedName st declIndex
          targetFqn := fullyQualifiedName st targetIndex
          category := category
          categoryName := st.declCategoryName targetIndex
          filePath := st.declFilePath targetIndex
          docs := st.declDocsHtml targetIndex false
          sourceHtml := st.parseHTML (st.declSourceHtml targetIndex)
          typeHtml := st.parseHTML (st.declTypeHtml targetIndex)
          isAlias := isAlias
          protoHtml :=
            if fnLike then some (st.parseHTML (st.declFnProtoHtml targetIndex false))
            else none
          doctestHtml :=
            if fnLike then some (st.parseHTML (st.declDoctestHtml targetIndex))
            else if containerLike then some (st.declDoctestHtml targetIndex)
            else none
          errorSetBaseDecl := errInfo.1
          params := if fnLike then st.declParams targetIndex else []
          fields := if containerLike then st.declFields targetIndex else []
          members := if containerLike then st.namespaceMembers targetIndex false else []
          errorSetNodes := errInfo.2 }

/-- `getDeclData` with a string identifier: `findDecl` lookup, throwing
(`none`) when the FQN is unknown. -/
def getDeclData (st : Store) (ifuel : Nat) (identifier : String) : Option DeclData :=
  let originalIndex := st.findDecl identifier
  if originalIndex = sentinel then none
  else getDeclDataAt st ifuel originalIndex

/-! ## `processDeclarations` (docParser.ts) -/

/-- One element of the list built by `processDeclarations`. -/
structure DeclItem where
  originalIndex : Nat
  targetIndex : Nat
  name : String
  fqn : String
  targetFqn : String
  category : Nat
  docsShort : String
  typeHtml : String
  protoHtmlShort : Option String
  deriving DecidableEq

/-- The per-member body of `processDeclarations`; `none` is the `continue`
(or an alias loop the fuel could not unfold). -/
def processDeclItem (st : Store) (ifuel : Nat) (memberIndex : Nat) : Option DeclItem :=
  match resolveLoop st ifuel memberIndex (st.categorize memberIndex) with
  | none => none
  | some (targetIndex, category) =>
    if targetIndex = sentinel then none
    else
      some
        { originalIndex := memberIndex
          targetIndex := targetIndex
          name := declIndexName st memberIndex
          fqn := fullyQualifiedName st memberIndex
          targetFqn := fullyQualifiedName st targetIndex
          category := category
          docsShort := st.declDocsHtml targetIndex true
          typeHtml := st.declTypeHtml targetIndex
          protoHtmlShort :=
            if category = CAT_function ∨ category = CAT_type_function then
              some (st.parseHTML (st.declFnProtoHtml targetIndex true))
            else none }

def processDeclarations (st : Store) (ifuel : Nat) (memberIndices : List Nat) :
    List DeclItem :=
  memberIndices.filterMap (processDeclItem st ifuel)

/-! ## Module Index (`updateModuleList`) -/

structure ModuleEntry where
  name : String
  rootDeclIndex : Nat
  deriving DecidableEq

/-- The `while (i < MAX_MODULES_CHECK)` probe loop: `fuel` is the number of
remaining probes (`10000 - i`), `i` the current probe index. -/
def moduleProbe (st : Store) : Nat → Nat → List ModuleEntry
  | 0, _ => []
  | fuel + 1, i =>
    if st.moduleName i = "" then []
    else
      let rest := moduleProbe st fuel (i + 1)
      if st.findModuleRoot i ≠ sentinel then
        ⟨st.moduleName i, st.findModuleRoot i⟩ :: rest
      else rest

/-- `MAX_MODULES_CHECK`. -/
def maxModulesCheck : Nat := 10000

/-- `updateModuleList`: probe then sort by name.  The source sorts with
`localeCompare`, modelled here as code-point (String order) comparison. -/
def updateModuleList (st : Store) : List ModuleEntry :=
  (moduleProbe st maxModulesCheck 0).insertionSort (fun a b => a.name ≤ b.name)

/-! ## `getModuleData` -/

structure ModuleData where
  name : String
  rootDeclIndex : Nat
  docs : String
  declarations : List DeclItem
  fields : List Nat
  deriving DecidableEq

/-- `getModuleData`: throws (`none`) when the module name is not in the
module list. -/
def getModuleData (st : Store) (ifuel : Nat) (moduleName : String) : Option ModuleData :=
  match (updateModuleList st).find? (fun m => m.name = moduleName) with
  | none => none
  | some moduleInfo =>
    let rootDeclIndex := moduleInfo.rootDeclIndex
    let memberIndices := st.namespaceMembers rootDeclIndex false
    some
      { name := moduleName
        rootDeclIndex := rootDeclIndex
        docs := st.declDocsHtml rootDeclIndex false
        declarations := processDeclarations st ifuel memberIndices
        fields := st.declFields rootDeclIndex }

/-! ## Recursive Route Enumerator (pathGenerator.ts) -/

/-- The `params` object of one generated path (`path` is always a string at
the push site: the source only pushes after establishing at least two FQN
parts, making the `undefined` arm of the `pathString` conditional dead). -/
structure RouteParams where
  module : String
  path : String
  deriving DecidableEq

/-- One element of the `paths` array: `{params, props: {declData}}`. -/
structure RouteEntry where
  params : RouteParams
  declData : DeclData
  deriving DecidableEq

/-- The shared mutable state of the traversal: the process-wide
`processedFqns` visited set and the `paths` output array. -/
structure GenState where
  processedFqns : List String
  paths : List RouteEntry
  deriving DecidableEq

/-- The route pushed for `declFqn`: `module` is the first dot-part of the
FQN, `path` the remaining parts joined with `"/"`. -/
def mkEntry (declFqn : String) (declData : DeclData) : RouteEntry :=
  ⟨⟨String.mk (jsSplit '.' declFqn).1,
    String.mk (joinChar '/' (jsSplit '.' declFqn).2)⟩, declData⟩

/-- `processDeclarationRecursively`.  `fuel` bounds the recursion depth
(the source recursion is unbounded; any fuel at least the store's member
nesting depth makes the fuel case unreachable and the two `match fuel`
arms coincide). -/
def processRec (st : Store) (ifuel : Nat) : Nat → String → GenState → GenState
  | fuel, declFqn, s =>
    if declFqn ∈ s.processedFqns then s
    else
      match getDeclData st ifuel declFqn with
      | none => ⟨declFqn :: s.processedFqns, s.paths⟩
      | some declData =>
        if (jsSplit '.' declFqn).2 = [] then ⟨declFqn :: s.processedFqns, s.paths⟩
        else
          if (declData.category = CAT_container ∨
              declData.category = CAT_namespace ∨
              declData.category = CAT_type) ∧ declData.members ≠ [] then
            match fuel with
            | 0 => ⟨declFqn :: s.processedFqns, s.paths ++ [mkEntry declFqn declData]⟩
            | fuel' + 1 =>
              ((processDeclarations st ifuel declData.members).map (fun d => d.fqn)).foldl
                (fun acc f => processRec st ifuel fuel' f acc)
                ⟨declFqn :: s.processedFqns, s.paths ++ [mkEntry declFqn declData]⟩
          else ⟨declFqn :: s.processedFqns, s.paths ++ [mkEntry declFqn declData]⟩

/-- The per-module body of `generateDeclarationPaths`: fetch the module's
data, keep the declarations with a nonempty FQN, and traverse each; a module
whose processing throws is caught, logged and skipped. -/
def processModule (st : Store) (ifuel fuel : Nat) (s : GenState) (m : ModuleEntry) :
    GenState :=
  match getModuleData st ifuel m.name with
  | none => s
  | some moduleData =>
    let validDeclarations := moduleData.declarations.filter (fun d => d.fqn ≠ "")
    validDeclarations.foldl (fun acc d => processRec st ifuel fuel d.fqn acc) s

/-- The enumeration phase of `generateDeclarationPaths`, over an explicit
module list. -/
def generateFromModules (st : Store) (fuel ifuel : Nat) (modules : List ModuleEntry) :
    GenState :=
  modules.foldl (processModule st ifuel fuel) ⟨[], []⟩

/-! ## JavaScript values and the Route Cache (pathGenerator.ts)

`JsVal` models the JSON-relevant fragment of JavaScript values that the
cache pipeline handles: `null`, `undefined`, booleans, (safe-integer)
numbers, strings, BigInts, arrays and plain objects. -/

inductive JsVal where
  | vnull
  | vundef
  | vbool (b : Bool)
  | vnum (n : Int)
  | vstr (s : List Char)
  | vbigint (n : Nat)
  | varr (xs : List JsVal)
  | vobj (fields : List (String × JsVal))

namespace JsVal

mutual

def beqVal : JsVal → JsVal → Bool
  | .vnull, .vnull => true
  | .vundef, .vundef => true
  | .vbool a, .vbool b => a == b
  | .vnum a, .vnum b => a == b
  | .vstr a, .vstr b => a == b
  | .vbigint a, .vbigint b => a == b
  | .varr a, .varr b => beqValList a b
  | .vobj a, .vobj b => beqValFields a b
  | _, _ => false
  termination_by structural a b => a

def beqValList : List JsVal → List JsVal → Bool
  | [], [] => true
  | x :: xs, y :: ys => beqVal x y && beqValList xs ys
  | _, _ => false
  termination_by structural a b => a

def beqValFields : List (String × JsVal) → List (String × JsVal) → Bool
  | [], [] => true
  | (k1, v1) :: xs, (k2, v2) :: ys => k1 == k2 && beqVal v1 v2 && beqValFields xs ys
  | _, _ => false
  termination_by structural a b => a

end

mutual

theorem beqVal_eq : ∀ {a b : JsVal}, beqVal a b = true → a = b
  | .vnull, .vnull, _ => rfl
  | .vundef, .vundef, _ => rfl
  | .vbool _, .vbool _, h => by
    simp only [beqVal, beq_iff_eq] at h; exact congrArg _ h
  | .vnum _, .vnum _, h => by
    simp only [beqVal, beq_iff_eq] at h; exact congrArg _ h
  | .vstr _, .vstr _, h => by
    simp only [beqVal, beq_iff_eq] at h; exact congrArg _ h
  | .vbigint _, .vbigint _, h => by
    simp only [beqVal, beq_iff_eq] at h; exact congrArg _ h
  | .varr _, .varr _, h => congrArg _ (beqValList_eq (by simpa [beqVal] using h))
  | .vobj _, .vobj _, h => congrArg _ (beqValFields_eq (by simpa [beqVal] using h))

theorem beqValList_eq : ∀ {a b : List JsVal}, beqValList a b = true → a = b
  | [], [], _ => rfl
  | x :: xs, y :: ys, h => by
    simp only [beqValList, Bool.and_eq_true] at h
    exact congrArg₂ (· :: ·) (beqVal_eq h.1) (beqValList_eq h.2)

theorem beqValFields_eq :
    ∀ {a b : List (String × JsVal)}, beqValFields a b = true → a = b
  | [], [], _ => rfl
  | (k1, v1) :: xs, (k2, v2) :: ys, h => by
    simp only [beqValFields, Bool.and_eq_true, beq_iff_eq] at h
    have hk : k1 = k2 := h.1.1
    have hv : v1 = v2 := beqVal_eq h.1.2
    have ht : xs = ys := beqValFields_eq h.2
    simp [hk, hv, ht]

end

mutual

theorem beqVal_refl : ∀ a : JsVal, beqVal a a = true
  | .vnull => rfl
  | .vundef => rfl
  | .vbool _ => by simp [beqVal]
  | .vnum _ => by simp [beqVal]
  | .vstr _ => by simp [beqVal]
  | .vbigint _ => by simp [beqVal]
  | .varr xs => by simpa [beqVal] using beqValList_refl xs
  | .vobj fs => by simpa [beqVal] using beqValFields_refl fs

theorem beqValList_refl : ∀ a : List JsVal, beqValList a a = true
  | [] => rfl
  | x :: xs => by
    simp only [beqValList, Bool.and_eq_true]
    exact ⟨beqVal_refl x, beqValList_refl xs⟩

theorem beqValFields_refl : ∀ a : List (String × JsVal), beqValFields a a = true
  | [] => rfl
  | (k, v) :: xs => by
    simp [beqValFields, beqVal_refl v, beqValFields_refl xs]

end

instance : DecidableEq JsVal := fun a b =>
  if h : beqVal a b = true then .isTrue (beqVal_eq h)
  else .isFalse (fun he => h (he ▸ beqVal_refl a))

end JsVal

/-! ## Decimal printing and parsing of BigInt values

`data.toString()` on a BigInt prints the decimal digits; `BigInt(s)` parses
them back.  (`BigInt` applied to a non-numeric string throws; no theorem
below evaluates the parser on a non-digit string, and the model extends it
totally.) -/

def digitChar (d : Nat) : Char := Char.ofNat (48 + d)

/-- Decimal digits of `n`, most significant first, prepended to `acc`; the
first argument is fuel bounding the number of divisions (any fuel above the
digit count gives the same result). -/
def toDecAux : Nat → Nat → List Char → List Char
  | 0, _, acc => acc
  | fuel + 1, n, acc =>
    if n < 10 then digitChar n :: acc
    else toDecAux fuel (n / 10) (digitChar (n % 10) :: acc)

def toDec (n : Nat) : List Char := toDecAux (n + 1) n []

def ofDec (l : List Char) : Nat :=
  l.foldl (fun acc c => acc * 10 + (c.toNat - 48)) 0

/-- The fixed tag prefix `"__bigint__:"`. -/
def bigintPrefix : List Char := "__bigint__:".toList

/-! ## `makeSerializable` / `restoreBigInts` (pathGenerator.ts) -/

mutual

/-- `makeSerializable`: BigInt values become tagged strings; arrays and
objects are mapped structurally; everything else is returned as is. -/
def makeSerializable : JsVal → JsVal
  | .vbigint n => .vstr (bigintPrefix ++ toDec n)
  | .varr xs => .varr (makeSerializableList xs)
  | .vobj fs => .vobj (makeSerializableFields fs)
  | v => v
  termination_by structural v => v

def makeSerializableList : List JsVal → List JsVal
  | [] => []
  | x :: xs => makeSerializable x :: makeSerializableList xs
  termination_by structural l => l

def makeSerializableFields : List (String × JsVal) → List (String × JsVal)
  | [] => []
  | (k, v) :: fs => (k, makeSerializable v) :: makeSerializableFields fs
  termination_by structural l => l

end

/-- The string case of `restoreBigInts`: a string bearing the tag prefix is
parsed back to a BigInt (`data.substring(11)` — `bigintPrefix` has length
11); any other string is kept. -/
def restoreStr (s : List Char) : JsVal :=
  if s.take 11 = bigintPrefix then .vbigint (ofDec (s.drop 11)) else .vstr s

mutual

/-- `restoreBigInts`. -/
def restoreBigInts : JsVal → JsVal
  | .vstr s => restoreStr s
  | .varr xs => .varr (restoreBigIntsList xs)
  | .vobj fs => .vobj (restoreBigIntsFields fs)
  | v => v
  termination_by structural v => v

def restoreBigIntsList : List JsVal → List JsVal
  | [] => []
  | x :: xs => restoreBigInts x :: restoreBigIntsList xs
  termination_by structural l => l

def restoreBigIntsFields : List (String × JsVal) → List (String × JsVal)
  | [] => []
  | (k, v) :: fs => (k, restoreBigInts v) :: restoreBigIntsFields fs
  termination_by structural l => l

end

mutual

/-- `JSON.parse(JSON.stringify(·))`: object fields whose value is
`undefined` are omitted, `undefined` array elements become `null`, and all
other structures round-trip structurally.  (`JSON.stringify` throws on a
BigInt; after `makeSerializable` no BigInt remains, so that arm — kept as
the identity — is never reached in the theorems below, and likewise a bare
top-level `undefined`.) -/
def jsonRoundTrip : JsVal → JsVal
  | .vundef => .vnull
  | .varr xs => .varr (jsonRoundTripList xs)
  | .vobj fs => .vobj (jsonRoundTripFields fs)
  | v => v
  termination_by structural v => v

def jsonRoundTripList : List JsVal → List JsVal
  | [] => []
  | x :: xs => jsonRoundTrip x :: jsonRoundTripList xs
  termination_by structural l => l

def jsonRoundTripFields : List (String × JsVal) → List (String × JsVal)
  | [] => []
  | (k, v) :: fs =>
    if v = .vundef then jsonRoundTripFields fs
    else (k, jsonRoundTrip v) :: jsonRoundTripFields fs
  termination_by structural l => l

end

mutual

/-- Does the value contain a string already bearing the reserved
`"__bigint__:"` tag prefix? -/
def hasBadString : JsVal → Bool
  | .vstr s => decide (s.take 11 = bigintPrefix)
  | .varr xs => hasBadStringList xs
  | .vobj fs => hasBadStringFields fs
  | _ => false
  termination_by structural v => v

def hasBadStringList : List JsVal → Bool
  | [] => false
  | x :: xs => hasBadString x || hasBadStringList xs
  termination_by structural l => l

def hasBadStringFields : List (String × JsVal) → Bool
  | [] => false
  | (_, v) :: fs => hasBadString v || hasBadStringFields fs
  termination_by structural l => l

end

mutual

/-- Does the value contain `undefined` anywhere? -/
def hasUndef : JsVal → Bool
  | .vundef => true
  | .varr xs => hasUndefList xs
  | .vobj fs => hasUndefFields fs
  | _ => false
  termination_by structural v => v

def hasUndefList : List JsVal → Bool
  | [] => false
  | x :: xs => hasUndef x || hasUndefList xs
  termination_by structural l => l

def hasUndefFields : List (String × JsVal) → Bool
  | [] => false
  | (_, v) :: fs => hasUndef v || hasUndefFields fs
  termination_by structural l => l

end

/-! ## The route data as a JavaScript value

The enumerator's `paths` array is an ordinary JavaScript value; these
encoders spell out that value.  A conditionally-assigned field is present
exactly when the corresponding switch branch assigned it; the error-set node
identifiers are the only BigInt leaves. -/

def optField (name : String) (f : α → JsVal) : Option α → List (String × JsVal)
  | none => []
  | some a => [(name, f a)]

def declDataToJs (d : DeclData) : JsVal :=
  .vobj
    ([("index", .vnum (d.index : Int)),
      ("originalIndex", .vnum (d.originalIndex : Int)),
      ("name", .vstr d.name.toList),
      ("fqn", .vstr d.fqn.toList),
      ("targetFqn", .vstr d.targetFqn.toList),
      ("category", .vnum (d.category : Int)),
      ("categoryName", .vstr d.categoryName.toList),
      ("filePath", .vstr d.filePath.toList),
      ("docs", .vstr d.docs.toList),
      ("sourceHtml", .vstr d.sourceHtml.toList),
      ("typeHtml", .vstr d.typeHtml.toList),
      ("isAlias", .vbool d.isAlias)] ++
     optField "protoHtml" (fun s => .vstr (String.toList s)) d.protoHtml ++
     optField "doctestHtml" (fun s => .vstr (String.toList s)) d.doctestHtml ++
     optField "errorSetBaseDecl" (fun n : Nat => .vnum (n : Int)) d.errorSetBaseDecl ++
     [("params", .varr (d.params.map (fun n : Nat => .vnum (n : Int)))),
      ("fields", .varr (d.fields.map (fun n : Nat => .vnum (n : Int)))),
      ("members", .varr (d.members.map (fun n : Nat => .vnum (n : Int)))),
      ("errorSetNodes", .varr (d.errorSetNodes.map (fun n => .vbigint n)))])

def routeEntryToJs (e : RouteEntry) : JsVal :=
  .vobj
    [("params", .vobj [("module", .vstr e.params.module.toList),
                       ("path", .vstr e.params.path.toList)]),
     ("props", .vobj [("declData", declDataToJs e.declData)])]

def routesToJs (paths : List RouteEntry) : JsVal :=
  .varr (paths.map routeEntryToJs)

/-! ## Route Cache (`getCachedPaths` / `generateDeclarationPaths`) -/

/-- The cache-file side of the world.  `cacheFile` is the parsed JSON
content of a readable, well-formed cache file; `none` covers a missing,
unreadable or unparseable file (all caught and treated alike by the
source).  `writeOk` says whether `fs.writeFile` succeeds. -/
structure CacheFS where
  cacheFile : Option JsVal
  writeOk : Bool

/-- `getCachedPaths`: a readable cache yields its content with BigInt
values restored; everything else is a cache miss (`null`), never an
error. -/
def getCachedPaths (fs : CacheFS) : Option JsVal :=
  match fs.cacheFile with
  | some content => some (restoreBigInts content)
  | none => none

/-- `generateDeclarationPaths`: short-circuit on a cache hit unless
`forceRegenerate`; otherwise enumerate, then attempt to persist (a failed
write only skips persistence).  Returns the resulting value together with
the cache-file state after the call. -/
def generateDeclarationPaths (st : Store) (fuel ifuel : Nat) (forceRegenerate : Bool)
    (fs : CacheFS) : JsVal × CacheFS :=
  let gen :=
    let paths := (generateFromModules st fuel ifuel (updateModuleList st)).paths
    let pathsJs := routesToJs paths
    let serializablePaths := makeSerializable pathsJs
    let fs' :=
      if fs.writeOk then { fs with cacheFile := some (jsonRoundTrip serializablePaths) }
      else fs
    (pathsJs, fs')
  if forceRegenerate then gen
  else
    match getCachedPaths fs with
    | some cachedPaths => (cachedPaths, fs)
    | none => gen

/-! ## WASM memory unwrappers (wasmUtils.ts)

`WasmMem` is the instance's linear memory: a byte size and the byte at each
address.  A packed 64-bit pointer/length value is modelled by its unsigned
64-bit value: the low 32 bits are the pointer, the high bits the length.
`TextDecoder.decode` never throws and is an opaque parameter `dec`; the
typed-array constructors throw a `RangeError` when the byte offset is not a
multiple of the element size, modelled by `none`. -/

structure WasmMem where
  size : Nat
  byteAt : Nat → Nat

/-- `Number(bigint & 0xffffffffn)`. -/
def unwrapPtr (b : Nat) : Nat := b % 2 ^ 32

/-- `Number(bigint >> 32n)`. -/
def unwrapLen (b : Nat) : Nat := b / 2 ^ 32

/-- The bytes `[ptr, ptr + len)` of the memory. -/
def bytesAt (m : WasmMem) (ptr len : Nat) : List Nat :=
  (List.range len).map (fun j => m.byteAt (ptr + j) % 256)

/-- `unwrapString`. -/
def unwrapString (dec : List Nat → String) (m : WasmMem) (b : Nat) : String :=
  if unwrapLen b = 0 then ""
  else if unwrapPtr b + unwrapLen b > m.size then "[Error: String OOB]"
  else dec (bytesAt m (unwrapPtr b) (unwrapLen b))

/-- The little-endian 32-bit word at address `a`. -/
def word32At (m : WasmMem) (a : Nat) : Nat :=
  m.byteAt a % 256 + 256 * (m.byteAt (a + 1) % 256) +
    65536 * (m.byteAt (a + 2) % 256) + 16777216 * (m.byteAt (a + 3) % 256)

/-- The little-endian 64-bit word at address `a`. -/
def word64At (m : WasmMem) (a : Nat) : Nat :=
  word32At m a + 2 ^ 32 * word32At m (a + 4)

/-- `unwrapSlice32`; `none` is the `RangeError` thrown by
`new Uint32Array(buffer, byteOffset, len)` on a misaligned offset. -/
def unwrapSlice32 (m : WasmMem) (b : Nat) : Option (List Nat) :=
  if unwrapLen b = 0 then some []
  else if unwrapPtr b + unwrapLen b * 4 > m.size then some []
  else if unwrapPtr b % 4 = 0 then
    some ((List.range (unwrapLen b)).map (fun j => word32At m (unwrapPtr b + 4 * j)))
  else none

/-- `unwrapSlice64`; `none` is the `RangeError` thrown by
`new BigUint64Array(buffer, byteOffset, len)` on a misaligned offset. -/
def unwrapSlice64 (m : WasmMem) (b : Nat) : Option (List Nat) :=
  if unwrapLen b = 0 then some []
  else if unwrapPtr b + unwrapLen b * 8 > m.size then some []
  else if unwrapPtr b % 8 = 0 then
    some ((List.range (unwrapLen b)).map (fun j => word64At m (unwrapPtr b + 8 * j)))
  else none

/-! ## Concrete stores used by witnesses and counterexamples -/

/-- A store holding nothing: no modules, every lookup misses. -/
def trivStore : Store where
  categorize := fun _ => CAT_primitive
  getAliasee := fun _ => sentinel
  declName := fun _ => ""
  declFqn := fun _ => ""
  declCategoryName := fun _ => ""
  declFilePath := fun _ => ""
  declDocsHtml := fun _ _ => ""
  declSourceHtml := fun _ => ""
  declTypeHtml := fun _ => ""
  declFnProtoHtml := fun _ _ => ""
  declDoctestHtml := fun _ => ""
  declParams := fun _ => []
  declFields := fun _ => []
  namespaceMembers := fun _ _ => []
  fnErrorSet := fun _ => 0
  fnErrorSetDecl := fun _ _ => sentinel
  errorSetNodeList := fun _ _ => []
  declErrorSet := fun _ => []
  findDecl := fun _ => sentinel
  moduleName := fun _ => ""
  findModuleRoot := fun _ => sentinel
  parseHTML := fun s => s

/-- A store whose alias graph is the two-handle cycle `0 → 1 → 0`: every
handle is an Alias, and neither aliasee is the sentinel or the current
handle. -/
def cycStore : Store :=
  { trivStore with
    categorize := fun _ => CAT_alias
    getAliasee := fun h => if h = 0 then 1 else if h = 1 then 0 else h }

/-- The store of §8 example 6: one module `"a"` with root handle 1, whose
sole (public) member is handle 2, a Function named `"f"` with FQN
`"a.f"`. -/
def exampleStore : Store :=
  { trivStore with
    categorize := fun h =>
      if h = 1 then CAT_namespace else if h = 2 then CAT_function else CAT_primitive
    declName := fun h => if h = 2 then "f" else if h = 1 then "a" else ""
    declFqn := fun h => if h = 2 then "a.f" else if h = 1 then "a" else ""
    namespaceMembers := fun h _ => if h = 1 then [2] else []
    findDecl := fun s => if s = "a.f" then 2 else if s = "a" then 1 else sentinel
    moduleName := fun i => if i = 0 then "a" else ""
    findModuleRoot := fun i => if i = 0 then 1 else sentinel }

/-- `exampleStore`, except that the documentation HTML of handle 2 is the
string `"__bigint__:0"` — a perfectly legal documentation text that collides
with the cache's BigInt tag. -/
def evilStore : Store :=
  { exampleStore with declDocsHtml := fun h _ => if h = 2 then "__bigint__:0" else "" }

/-- `exampleStore`, except that the function at handle 2 carries an error
set whose node list holds the maximal 64-bit identifier
18446744073709551615. -/
def bigStore : Store :=
  { exampleStore with
    fnErrorSet := fun h => if h = 2 then 5 else 0
    fnErrorSetDecl := fun h node => if h = 2 ∧ node = 5 then 2 else sentinel
    errorSetNodeList := fun base node =>
      if base = 2 ∧ node = 5 then [18446744073709551615] else [] }

/-! ## The Alias Resolver: helper lemmas -/

/-- A non-Alias category exits the resolution loop at once, for any fuel. -/
theorem resolveLoop_not_alias (st : Store) (fuel target cat : Nat)
    (h : cat ≠ CAT_alias) : resolveLoop st fuel target cat = some (target, cat) := by
  unfold resolveLoop
  simp [h]

/-- A sentinel or self-referential aliasee breaks the loop, returning the
current (still Alias-categorized) handle. -/
theorem resolveLoop_break (st : Store) (fuel target : Nat)
    (h : st.getAliasee target = sentinel ∨ st.getAliasee target = target) :
    resolveLoop st fuel target CAT_alias = some (target, CAT_alias) := by
  unfold resolveLoop
  simp [h]

/-- An Alias category with a usable aliasee steps the loop. -/
theorem resolveLoop_step (st : Store) (fuel target : Nat)
    (h : ¬(st.getAliasee target = sentinel ∨ st.getAliasee target = target)) :
    resolveLoop st (fuel + 1) target CAT_alias =
      resolveLoop st fuel (st.getAliasee target)
        (st.categorize (st.getAliasee target)) := by
  conv_lhs => rw [resolveLoop]
  simp [h]

/-- An Alias category with a usable aliasee and no fuel: the model cannot
unfold the still-running loop. -/
theorem resolveLoop_zero (st : Store) (target : Nat)
    (h : ¬(st.getAliasee target = sentinel ∨ st.getAliasee target = target)) :
    resolveLoop st 0 target CAT_alias = none := by
  unfold resolveLoop
  simp [h]

/-- Along the resolution loop the category tracked is always the category of
the handle tracked, so the final category is the final handle's category. -/
theorem resolveLoop_snd_categorize (st : Store) :
    ∀ (fuel target cat : Nat), cat = st.categorize target →
      ∀ out : Nat × Nat, resolveLoop st fuel target cat = some out →
        out.2 = st.categorize out.1 := by
  intro fuel
  induction fuel with
  | zero =>
    intro t c hc out h
    subst hc
    by_cases hA : st.categorize t = CAT_alias
    · rw [hA] at h
      by_cases hBr : st.getAliasee t = sentinel ∨ st.getAliasee t = t
      · rw [resolveLoop_break st 0 t hBr] at h
        cases h
        simpa using hA.symm
      · rw [resolveLoop_zero st t hBr] at h
        cases h
    · rw [resolveLoop_not_alias st 0 t _ hA] at h
      cases h
      rfl
  | succ f ih =>
    intro t c hc out h
    subst hc
    by_cases hA : st.categorize t = CAT_alias
    · rw [hA] at h
      by_cases hBr : st.getAliasee t = sentinel ∨ st.getAliasee t = t
      · rw [resolveLoop_break st (f + 1) t hBr] at h
        cases h
        simpa using hA.symm
      · rw [resolveLoop_step st f t hBr] at h
        exact ih _ _ rfl out h
    · rw [resolveLoop_not_alias st (f + 1) t _ hA] at h
      cases h
      rfl

/-- Claim C5 (helper): resolving a non-alias handle is the identity. -/
theorem resolveLoop_id_of_not_alias (st : Store) (fuel target : Nat)
    (h : st.categorize target ≠ CAT_alias) :
    resolveLoop st fuel target (st.categorize target) =
      some (target, st.categorize target) :=
  resolveLoop_not_alias st fuel target _ h

/-- C5: For every handle whose category is not Alias, the resolution loop
performs zero iterations — the same result is produced even with zero fuel,
i.e. without unfolding a single iteration — and returns the same handle
(with its own category) unchanged. -/
theorem alias_resolution_idempotent (st : Store) (fuel target : Nat)
    (h : st.categorize target ≠ CAT_alias) :
    resolveLoop st fuel target (st.categorize target) =
        some (target, st.categorize target) ∧
      resolveLoop st 0 target (st.categorize target) =
        some (target, st.categorize target) :=
  ⟨resolveLoop_id_of_not_alias st fuel target h,
   resolveLoop_id_of_not_alias st 0 target h⟩

theorem alias_resolution_idempotent_witness :
    trivStore.categorize 5 ≠ CAT_alias ∧
      (resolveLoop trivStore 9 5 (trivStore.categorize 5) =
          some (5, trivStore.categorize 5) ∧
        resolveLoop trivStore 0 5 (trivStore.categorize 5) =
          some (5, trivStore.categorize 5)) :=
  ⟨by decide, alias_resolution_idempotent trivStore 9 5 (by decide)⟩

/-- C3, as stated, is false: the implementation imposes no maximum chain
length bound.  On the two-handle alias cycle `0 → 1 → 0` (in which no
target equals the sentinel or the current handle) the resolution loop is
still running after 64 iterations — the recommended bound — and likewise
after 65 and after 1000 iterations, with no resolution failure signalled. -/
theorem alias_resolution_bound_counterexample :
    resolveLoop cycStore 64 0 (cycStore.categorize 0) = none ∧
    resolveLoop cycStore 65 0 (cycStore.categorize 0) = none ∧
    resolveLoop cycStore 1000 0 (cycStore.categorize 0) = none := by
  decide

/-- C3 (amended): the implementation imposes no maximum chain length bound;
the resolution loop exits only when a non-Alias category, a sentinel target
or a self-referential target is reached, so on the pathological two-handle
cycle `0 → 1 → 0` it runs forever: for every number of iterations the model
is allowed to unfold, the loop has neither returned nor signalled a
failure. -/
theorem alias_resolution_unbounded (fuel : Nat) :
    resolveLoop cycStore fuel 0 (cycStore.categorize 0) = none ∧
    resolveLoop cycStore fuel 1 (cycStore.categorize 1) = none := by
  induction fuel with
  | zero => decide
  | succ f ih =>
    constructor
    · unfold resolveLoop
      simpa [cycStore, trivStore, sentinel, CAT_alias] using ih.2
    · unfold resolveLoop
      simpa [cycStore, trivStore, sentinel, CAT_alias] using ih.1

/-- C4: every record assembled by `getDeclData` takes `name` and `fqn` from
the original (possibly alias) handle, `targetFqn` from the fully-resolved
handle `d.index`, its category is the category of the resolved handle, and
`fqn` can differ from `targetFqn` only when `isAlias` is true. -/
theorem record_original_vs_target_invariants (st : Store) (ifuel declIndex : Nat)
    (d : DeclData) (h : getDeclDataAt st ifuel declIndex = some d) :
    d.name = declIndexName st declIndex ∧
    d.fqn = fullyQualifiedName st declIndex ∧
    d.targetFqn = fullyQualifiedName st d.index ∧
    d.category = st.categorize d.index ∧
    (d.isAlias = false → d.fqn = d.targetFqn) := by
  unfold getDeclDataAt at h
  split at h
  · cases h
  · split at h
    next => cases h
    next targetIndex category heq =>
      cases h
      refine ⟨rfl, rfl, rfl, ?_, ?_⟩
      · exact resolveLoop_snd_categorize st ifuel declIndex _ rfl _ heq
      · intro hA
        have hna : st.categorize declIndex ≠ CAT_alias := by
          simpa using of_decide_eq_false hA
        have := resolveLoop_id_of_not_alias st ifuel declIndex hna
        rw [this] at heq
        cases heq
        rfl

/-- The record `getDeclData` assembles for handle 2 of `exampleStore`. -/
def exampleDeclData : DeclData where
  index := 2
  originalIndex := 2
  name := "f"
  fqn := "a.f"
  targetFqn := "a.f"
  category := CAT_function
  categoryName := ""
  filePath := ""
  docs := ""
  sourceHtml := ""
  typeHtml := ""
  isAlias := false
  protoHtml := some ""
  doctestHtml := some ""
  errorSetBaseDecl := none
  params := []
  fields := []
  members := []
  errorSetNodes := []

/-! ## C8: module discovery -/

instance : IsTotal ModuleEntry (fun a b => a.name ≤ b.name) :=
  ⟨fun a b => le_total a.name b.name⟩

instance : IsTrans ModuleEntry (fun a b => a.name ≤ b.name) :=
  ⟨fun _ _ _ h1 h2 => le_trans h1 h2⟩

/-- The entry the probe keeps (or drops) for probe index `idx`. -/
def probeEntry (st : Store) (idx : Nat) : Option ModuleEntry :=
  if st.findModuleRoot idx ≠ sentinel then
    some ⟨st.moduleName idx, st.findModuleRoot idx⟩
  else none

/-- The probe loop visits exactly the consecutive indices `i, i+1, ...` up
to the first empty name or until its fuel is spent, keeping the entries with
a non-sentinel root. -/
theorem moduleProbe_spec (st : Store) :
    ∀ fuel i, ∃ k, k ≤ fuel ∧
      (∀ j, j < k → st.moduleName (i + j) ≠ "") ∧
      (k < fuel → st.moduleName (i + k) = "") ∧
      moduleProbe st fuel i = (List.range' i k).filterMap (probeEntry st) := by
  intro fuel
  induction fuel with
  | zero =>
    intro i
    exact ⟨0, Nat.le_refl 0, fun j hj => absurd hj (Nat.not_lt_zero j),
      fun h => absurd h (Nat.lt_irrefl 0), rfl⟩
  | succ f ih =>
    intro i
    by_cases hempty : st.moduleName i = ""
    · refine ⟨0, Nat.zero_le _, fun j hj => absurd hj (Nat.not_lt_zero j),
        fun _ => by simpa using hempty, ?_⟩
      unfold moduleProbe
      simp [hempty]
    · obtain ⟨k, hk, hnon, hend, heq⟩ := ih (i + 1)
      refine ⟨k + 1, by omega, ?_, ?_, ?_⟩
      · intro j hj
        cases j with
        | zero => simpa using hempty
        | succ j' =>
          have := hnon j' (by omega)
          simpa [Nat.add_comm, Nat.add_assoc, Nat.add_left_comm] using this
      · intro hlt
        have := hend (by omega)
        simpa [Nat.add_comm, Nat.add_assoc, Nat.add_left_comm] using this
      · unfold moduleProbe
        rw [List.range'_succ, List.filterMap_cons, ← heq]
        unfold probeEntry
        by_cases hroot : st.findModuleRoot i ≠ sentinel <;> simp [hempty, hroot]

/-- C8: module discovery probes the store's module-enumeration primitive at
sequential indices starting at 0, stops at the first empty name or at the
10,000-probe safety bound (whichever comes first), drops every entry whose
root handle is the sentinel, and sorts the surviving entries by name
(`localeCompare` modelled as code-point order). -/
theorem module_discovery_characterization (st : Store) :
    ∃ k, k ≤ maxModulesCheck ∧
      (∀ j, j < k → st.moduleName j ≠ "") ∧
      (k < maxModulesCheck → st.moduleName k = "") ∧
      List.Perm (updateModuleList st) ((List.range' 0 k).filterMap (probeEntry st)) ∧
      List.Sorted (fun a b => a.name ≤ b.name) (updateModuleList st) := by
  obtain ⟨k, hk, hnon, hend, heq⟩ := moduleProbe_spec st maxModulesCheck 0
  refine ⟨k, hk, by simpa using hnon, by simpa using hend, ?_, ?_⟩
  · unfold updateModuleList
    rw [← heq]
    exact List.perm_insertionSort _ _
  · exact List.sorted_insertionSort _ _

/-! ## C6: cache policy -/

/-- C6: with `forceRegenerate = false`, (a) a readable cache file is
returned (BigInts restored) without touching the file system state and —
since the right-hand side mentions no store — without any enumeration or
Declaration Store work; (b) a missing/unreadable cache is a plain miss
(`none`, never an error) and enumeration proceeds, its result being
returned; (c) a failed cache write is non-fatal: the computed route set is
still returned and only persistence is skipped. -/
theorem cache_policy (st : Store) (fuel ifuel : Nat) (fs : CacheFS) (j : JsVal) :
    (fs.cacheFile = some j →
      generateDeclarationPaths st fuel ifuel false fs = (restoreBigInts j, fs)) ∧
    (fs.cacheFile = none →
      getCachedPaths fs = none ∧
      generateDeclarationPaths st fuel ifuel false fs =
        (routesToJs (generateFromModules st fuel ifuel (updateModuleList st)).paths,
          if fs.writeOk then
            { fs with
              cacheFile := some (jsonRoundTrip (makeSerializable
                (routesToJs
                  (generateFromModules st fuel ifuel (updateModuleList st)).paths))) }
          else fs)) ∧
    (fs.cacheFile = none → fs.writeOk = false →
      generateDeclarationPaths st fuel ifuel false fs =
        (routesToJs (generateFromModules st fuel ifuel (updateModuleList st)).paths,
          fs)) := by
  refine ⟨?_, ?_, ?_⟩
  · intro h
    simp [generateDeclarationPaths, getCachedPaths, h]
  · intro h
    refine ⟨by simp [getCachedPaths, h], ?_⟩
    simp [generateDeclarationPaths, getCachedPaths, h]
  · intro h hw
    simp [generateDeclarationPaths, getCachedPaths, h, hw]

theorem cache_policy_witness :
    (generateDeclarationPaths trivStore 1 1 false ⟨some (.varr []), true⟩ =
      (restoreBigInts (.varr []), ⟨some (.varr []), true⟩)) ∧
    (getCachedPaths ⟨none, false⟩ = none ∧
      generateDeclarationPaths trivStore 1 1 false ⟨none, false⟩ =
        (routesToJs (generateFromModules trivStore 1 1 (updateModuleList trivStore)).paths,
          ⟨none, false⟩)) :=
  ⟨(cache_policy trivStore 1 1 ⟨some (.varr []), true⟩ (.varr [])).1 rfl,
   ⟨((cache_policy trivStore 1 1 ⟨none, false⟩ .vnull).2.1 rfl).1,
    (cache_policy trivStore 1 1 ⟨none, false⟩ .vnull).2.2 rfl rfl⟩⟩

/-! ## C9: per-item failure isolation -/

/-- A declaration whose assembly throws is logged and skipped: the FQN is
still marked processed (the insertion precedes the `try`), but no route is
emitted, no recursion happens, and the traversal returns normally. -/
theorem processRec_decl_failure (st : Store) (ifuel fuel : Nat) (fqn : String)
    (s : GenState) (hnv : fqn ∉ s.processedFqns)
    (hfail : getDeclData st ifuel fqn = none) :
    processRec st ifuel fuel fqn s = ⟨fqn :: s.processedFqns, s.paths⟩ := by
  unfold processRec
  simp [hnv, hfail]

/-- A module whose processing throws is logged and skipped, and the
enumeration of every other module is exactly what it would have been without
that module. -/
theorem generate_module_failure (st : Store) (fuel ifuel : Nat)
    (ms1 ms2 : List ModuleEntry) (m : ModuleEntry)
    (hfail : getModuleData st ifuel m.name = none) :
    generateFromModules st fuel ifuel (ms1 ++ m :: ms2) =
      generateFromModules st fuel ifuel (ms1 ++ ms2) := by
  unfold generateFromModules
  rw [List.foldl_append, List.foldl_cons, List.foldl_append]
  congr 1
  unfold processModule
  rw [hfail]

/-- C9: enumeration failures are isolated per item.  A declaration whose
assembly throws contributes no route and stops no one (its FQN is merely
consumed); a module whose processing throws leaves the result exactly as if
the module were absent; in both cases enumeration runs to completion. -/
theorem failure_isolation (st : Store) (fuel ifuel : Nat) (fqn : String)
    (s : GenState) (ms1 ms2 : List ModuleEntry) (m : ModuleEntry)
    (hnv : fqn ∉ s.processedFqns) (hd : getDeclData st ifuel fqn = none)
    (hm : getModuleData st ifuel m.name = none) :
    processRec st ifuel fuel fqn s = ⟨fqn :: s.processedFqns, s.paths⟩ ∧
      generateFromModules st fuel ifuel (ms1 ++ m :: ms2) =
        generateFromModules st fuel ifuel (ms1 ++ ms2) :=
  ⟨processRec_decl_failure st ifuel fuel fqn s hnv hd,
   generate_module_failure st fuel ifuel ms1 ms2 m hm⟩

theorem failure_isolation_witness :
    processRec trivStore 1 1 "x" ⟨[], []⟩ = ⟨["x"], []⟩ ∧
      generateFromModules trivStore 1 1 ([] ++ ⟨"m", 7⟩ :: []) =
        generateFromModules trivStore 1 1 ([] ++ []) :=
  failure_isolation trivStore 1 1 "x" ⟨[], []⟩ [] [] ⟨"m", 7⟩
    (by decide) (by decide) (by decide)

/-! ## Traversal invariants (C7 and C1) -/

/-- A state predicate survives a fold when every step preserves it (the
step may also rely on a per-element property of the folded list). -/
theorem foldl_preserve {α : Type} (P : GenState → Prop) (Q : α → Prop)
    (f : GenState → α → GenState) (hf : ∀ s x, Q x → P s → P (f s x)) :
    ∀ (l : List α) (s : GenState), (∀ x ∈ l, Q x) → P s → P (l.foldl f s) := by
  intro l
  induction l with
  | nil => intro s _ hs; exact hs
  | cons x xs ih =>
    intro s hq hs
    exact ih (f s x) (fun y hy => hq y (List.mem_cons_of_mem x hy))
      (hf s x (hq x (List.mem_cons_self x xs)) hs)

/-- The shape C7 requires of every emitted route: it was emitted for some
FQN of depth at least 1 below a module root (at least two dot-separated
parts), its `module` is the first part and its `path` the remaining parts
joined with `"/"`. -/
def entryShape (e : RouteEntry) : Prop :=
  ∃ fqn : String, (jsSplit '.' fqn).2 ≠ [] ∧
    e.params.module = String.mk (jsSplit '.' fqn).1 ∧
    e.params.path = String.mk (joinChar '/' (jsSplit '.' fqn).2)

/-- Pushing `mkEntry` onto a shape-respecting path list keeps every entry
shaped. -/
theorem mem_push_shape {s : GenState} {fqn : String} {d : DeclData}
    (hs : ∀ e ∈ s.paths, entryShape e) (hne : (jsSplit '.' fqn).2 ≠ []) :
    ∀ e ∈ s.paths ++ [mkEntry fqn d], entryShape e := by
  intro e he
  rcases List.mem_append.1 he with h | h
  · exact hs e h
  · rcases List.mem_singleton.1 h with rfl
    exact ⟨fqn, hne, rfl, rfl⟩

/-- Every route `processRec` adds satisfies `entryShape`. -/
theorem processRec_shape (st : Store) (ifuel : Nat) :
    ∀ (fuel : Nat) (fqn : String) (s : GenState),
      (∀ e ∈ s.paths, entryShape e) →
      ∀ e ∈ (processRec st ifuel fuel fqn s).paths, entryShape e := by
  intro fuel
  induction fuel with
  | zero =>
    intro fqn s hs
    unfold processRec
    split
    · exact hs
    split
    · exact hs
    split
    · exact hs
    split
    · exact mem_push_shape hs (by assumption)
    · exact mem_push_shape hs (by assumption)
  | succ f ih =>
    intro fqn s hs
    unfold processRec
    split
    · exact hs
    split
    · exact hs
    split
    · exact hs
    split
    · refine foldl_preserve (fun s => ∀ e ∈ s.paths, entryShape e)
        (fun _ => True) _ ?_ _ _ (fun _ _ => trivial)
        (mem_push_shape hs (by assumption))
      intro s' x _ hs'
      exact ih x s' hs'
    · exact mem_push_shape hs (by assumption)

/-- Every route the whole enumeration emits satisfies `entryShape`. -/
theorem generateFromModules_shape (st : Store) (fuel ifuel : Nat)
    (mods : List ModuleEntry) :
    ∀ e ∈ (generateFromModules st fuel ifuel mods).paths, entryShape e := by
  refine foldl_preserve (fun s => ∀ e ∈ s.paths, entryShape e) (fun _ => True)
    _ ?_ _ _ (fun _ _ => trivial) (by intro e he; cases he)
  intro s m _ hs
  unfold processModule
  split
  · exact hs
  · refine foldl_preserve (fun s => ∀ e ∈ s.paths, entryShape e) (fun _ => True)
      _ ?_ _ _ (fun _ _ => trivial) hs
    intro s' d _ hs'
    exact processRec_shape st ifuel fuel d.fqn s' hs'

/-- C7: a route is emitted only for an FQN with at least two dot-separated
parts (module roots emit nothing), with `module` the first part and
`path` the remaining parts joined with `"/"`; and on the §8 example store
(module `"a"`, one Function member `"a.f"`) the enumeration yields exactly
one route, with module `"a"`, subpath `"f"`, category Function and record
FQN `"a.f"`. -/
theorem route_emission_shape (st : Store) (fuel ifuel : Nat)
    (mods : List ModuleEntry) :
    (∀ e ∈ (generateFromModules st fuel ifuel mods).paths, entryShape e) ∧
    ((generateFromModules exampleStore 3 3 (updateModuleList exampleStore)).paths.map
        (fun e => (e.params.module, e.params.path, e.declData.category, e.declData.fqn)) =
      [("a", "f", CAT_function, "a.f")]) :=
  ⟨generateFromModules_shape st fuel ifuel mods, by decide⟩

theorem route_emission_shape_witness :
    entryShape ⟨⟨"a", "f"⟩, exampleDeclData⟩ :=
  (route_emission_shape exampleStore 3 3 (updateModuleList exampleStore)).1
    ⟨⟨"a", "f"⟩, exampleDeclData⟩ (by decide)

/-! ## C1: split/join injectivity on slash-free FQNs -/

/-- Joining the split pieces with the separator reconstructs the string. -/
theorem joinChar_jsSplitAux (c : Char) :
    ∀ l : List Char, joinChar c ((jsSplitAux c l).1 :: (jsSplitAux c l).2) = l := by
  intro l
  induction l with
  | nil => rfl
  | cons a as ih =>
    by_cases hac : a = c
    · simp only [jsSplitAux, hac, if_pos rfl]
      cases hs : jsSplitAux c as with
      | mk h t =>
        rw [hs] at ih
        simpa [joinChar] using ih
    · simp only [jsSplitAux, if_neg hac]
      cases hs : jsSplitAux c as with
      | mk h t =>
        rw [hs] at ih
        cases t with
        | nil => simpa [joinChar] using ih
        | cons p ps => simpa [joinChar] using ih

/-- Every character of every split piece occurs in the original string. -/
theorem jsSplitAux_chars (c : Char) :
    ∀ l : List Char,
      (∀ x ∈ (jsSplitAux c l).1, x ∈ l) ∧
      (∀ p ∈ (jsSplitAux c l).2, ∀ x ∈ p, x ∈ l) := by
  intro l
  induction l with
  | nil =>
    exact ⟨fun x hx => absurd hx (List.not_mem_nil x), by simp [jsSplitAux]⟩
  | cons a as ih =>
    by_cases hac : a = c
    · simp only [jsSplitAux, hac, if_pos rfl]
      refine ⟨fun x hx => absurd hx (List.not_mem_nil x), ?_⟩
      intro p hp x hx
      rcases List.mem_cons.1 hp with rfl | hp'
      · exact List.mem_cons_of_mem _ (ih.1 x hx)
      · exact List.mem_cons_of_mem _ (ih.2 p hp' x hx)
    · simp only [jsSplitAux, if_neg hac]
      refine ⟨?_, ?_⟩
      · intro x hx
        rcases List.mem_cons.1 hx with rfl | hx'
        · exact List.mem_cons_self _ _
        · exact List.mem_cons_of_mem _ (ih.1 x hx')
      · intro p hp x hx
        exact List.mem_cons_of_mem _ (ih.2 p hp x hx)

/-- Cancellation of `++ c ::` between `c`-free prefixes. -/
theorem append_sep_inj (c : Char) :
    ∀ (h1 h2 A B : List Char), c ∉ h1 → c ∉ h2 →
      h1 ++ c :: A = h2 ++ c :: B → h1 = h2 ∧ A = B := by
  intro h1
  induction h1 with
  | nil =>
    intro h2 A B _ hc2 heq
    cases h2 with
    | nil => simpa using heq
    | cons y ys =>
      simp only [List.nil_append, List.cons_append, List.cons.injEq] at heq
      exact absurd (heq.1 ▸ List.mem_cons_self y ys) hc2
  | cons x xs ih =>
    intro h2 A B hc1 hc2 heq
    cases h2 with
    | nil =>
      simp only [List.nil_append, List.cons_append, List.cons.injEq] at heq
      exact absurd (heq.1.symm ▸ List.mem_cons_self x xs) hc1
    | cons y ys =>
      simp only [List.cons_append, List.cons.injEq] at heq
      obtain ⟨rfl, heq'⟩ := heq
      obtain ⟨h, h'⟩ := ih ys A B (fun hm => hc1 (List.mem_cons_of_mem _ hm))
        (fun hm => hc2 (List.mem_cons_of_mem _ hm)) heq'
      exact ⟨by rw [h], h'⟩

/-- `joinChar c` is injective on nonempty lists of `c`-free pieces. -/
theorem joinChar_inj (c : Char) :
    ∀ (t1 t2 : List (List Char)) (h1 h2 : List Char),
      c ∉ h1 → c ∉ h2 → (∀ p ∈ t1, c ∉ p) → (∀ p ∈ t2, c ∉ p) →
      joinChar c (h1 :: t1) = joinChar c (h2 :: t2) →
      h1 = h2 ∧ t1 = t2 := by
  intro t1
  induction t1 with
  | nil =>
    intro t2 h1 h2 hc1 hc2 _ ht2 heq
    cases t2 with
    | nil => exact ⟨heq, rfl⟩
    | cons p ps =>
      simp only [joinChar] at heq
      exact absurd (heq ▸ List.mem_append_right h2 (List.mem_cons_self c _)) hc1
  | cons q qs ih =>
    intro t2 h1 h2 hc1 hc2 ht1 ht2 heq
    cases t2 with
    | nil =>
      simp only [joinChar] at heq
      exact absurd (heq ▸ List.mem_append_right h1 (List.mem_cons_self c _)) hc2
    | cons p ps =>
      simp only [joinChar] at heq
      obtain ⟨rfl, heq'⟩ := append_sep_inj c h1 h2 _ _ hc1 hc2 heq
      obtain ⟨hq, hqs⟩ := ih ps q p (ht1 q (List.mem_cons_self q qs))
        (ht2 p (List.mem_cons_self p ps))
        (fun r hr => ht1 r (List.mem_cons_of_mem q hr))
        (fun r hr => ht2 r (List.mem_cons_of_mem p hr))
        (by cases qs <;> cases ps <;> simpa [joinChar] using heq')
      exact ⟨rfl, by rw [hq, hqs]⟩

theorem string_toList_inj {a b : String} (h : a.toList = b.toList) : a = b := by
  cases a with
  | mk da =>
    cases b with
    | mk db =>
      have hd : da = db := by simpa [String.toList] using h
      rw [hd]

/-- The route key of an entry: its `(module, path)` parameter pair. -/
def keyPair (e : RouteEntry) : String × String := (e.params.module, e.params.path)

/-- The route key the traversal derives from an FQN. -/
def pairOfFqn (f : String) : String × String :=
  (String.mk (jsSplit '.' f).1, String.mk (joinChar '/' (jsSplit '.' f).2))

/-- On slash-free FQNs of depth at least 1, distinct FQNs give distinct
route keys. -/
theorem pairOfFqn_inj {f g : String}
    (hf : '/' ∉ f.toList) (hg : '/' ∉ g.toList)
    (hf2 : (jsSplit '.' f).2 ≠ []) (hg2 : (jsSplit '.' g).2 ≠ [])
    (heq : pairOfFqn f = pairOfFqn g) : f = g := by
  unfold pairOfFqn at heq
  obtain ⟨hm, hp⟩ := Prod.mk.injEq .. ▸ heq
  have hm' : (jsSplit '.' f).1 = (jsSplit '.' g).1 := by
    have := congrArg String.toList hm
    simpa using this
  have hp' : joinChar '/' (jsSplit '.' f).2 = joinChar '/' (jsSplit '.' g).2 := by
    have := congrArg String.toList hp
    simpa using this
  obtain ⟨pf, psf, hpf⟩ : ∃ p ps, (jsSplit '.' f).2 = p :: ps := by
    cases hc : (jsSplit '.' f).2 with
    | nil => exact absurd hc hf2
    | cons p ps => exact ⟨p, ps, rfl⟩
  obtain ⟨pg, psg, hpg⟩ : ∃ p ps, (jsSplit '.' g).2 = p :: ps := by
    cases hc : (jsSplit '.' g).2 with
    | nil => exact absurd hc hg2
    | cons p ps => exact ⟨p, ps, rfl⟩
  have hfree_f : ∀ p ∈ (jsSplit '.' f).2, '/' ∉ p := by
    intro p hp hmem
    exact hf ((jsSplitAux_chars '.' f.toList).2 p hp '/' hmem)
  have hfree_g : ∀ p ∈ (jsSplit '.' g).2, '/' ∉ p := by
    intro p hp hmem
    exact hg ((jsSplitAux_chars '.' g.toList).2 p hp '/' hmem)
  rw [hpf] at hp'
  rw [hpg] at hp'
  obtain ⟨hpq, hps⟩ := joinChar_inj '/' psf psg pf pg
    (hfree_f pf (hpf ▸ List.mem_cons_self pf psf))
    (hfree_g pg (hpg ▸ List.mem_cons_self pg psg))
    (fun r hr => hfree_f r (hpf ▸ List.mem_cons_of_mem pf hr))
    (fun r hr => hfree_g r (hpg ▸ List.mem_cons_of_mem pg hr)) hp'
  apply string_toList_inj
  rw [← joinChar_jsSplitAux '.' f.toList, ← joinChar_jsSplitAux '.' g.toList]
  show joinChar '.' ((jsSplit '.' f).1 :: (jsSplit '.' f).2) =
    joinChar '.' ((jsSplit '.' g).1 :: (jsSplit '.' g).2)
  rw [hm', hpf, hpg, hpq, hps]

/-! ## C1: the traversal invariant -/

/-- The route-set invariant: route keys are pairwise distinct, and every
emitted route's key is the key of some already-visited, slash-free FQN of
depth at least 1. -/
def Inv (s : GenState) : Prop :=
  (s.paths.map keyPair).Nodup ∧
  ∀ e ∈ s.paths, ∃ f, f ∈ s.processedFqns ∧ '/' ∉ f.toList ∧
    (jsSplit '.' f).2 ≠ [] ∧ keyPair e = pairOfFqn f

/-- The visited set only grows along a fold whose steps only grow it. -/
theorem foldl_visited_mono {α : Type} (f : GenState → α → GenState)
    (hf : ∀ s x, s.processedFqns ⊆ (f s x).processedFqns) :
    ∀ (l : List α) (s : GenState),
      s.processedFqns ⊆ (l.foldl f s).processedFqns := by
  intro l
  induction l with
  | nil => intro s; exact fun x hx => hx
  | cons a as ih => intro s; exact fun x hx => ih (f s a) (hf s a hx)

/-- The visited set only grows under `processRec`. -/
theorem processRec_visited_mono (st : Store) (ifuel : Nat) :
    ∀ (fuel : Nat) (fqn : String) (s : GenState),
      s.processedFqns ⊆ (processRec st ifuel fuel fqn s).processedFqns := by
  intro fuel
  induction fuel with
  | zero =>
    intro fqn s
    unfold processRec
    split
    · exact fun x hx => hx
    split
    · exact fun x hx => List.mem_cons_of_mem _ hx
    split
    · exact fun x hx => List.mem_cons_of_mem _ hx
    split
    · exact fun x hx => List.mem_cons_of_mem _ hx
    · exact fun x hx => List.mem_cons_of_mem _ hx
  | succ f ih =>
    intro fqn s
    unfold processRec
    split
    · exact fun x hx => hx
    split
    · exact fun x hx => List.mem_cons_of_mem _ hx
    split
    · exact fun x hx => List.mem_cons_of_mem _ hx
    split
    · intro x hx
      exact foldl_visited_mono _ (fun s' y => ih y s') _ _
        (List.mem_cons_of_mem _ hx)
    · exact fun x hx => List.mem_cons_of_mem _ hx

/-- Marking a fresh FQN visited (with no push) preserves the invariant. -/
theorem Inv_mark {s : GenState} (fqn : String) (hinv : Inv s) :
    Inv ⟨fqn :: s.processedFqns, s.paths⟩ := by
  refine ⟨hinv.1, ?_⟩
  intro e he
  obtain ⟨g, hgv, hgf, hg2, hk⟩ := hinv.2 e he
  exact ⟨g, List.mem_cons_of_mem _ hgv, hgf, hg2, hk⟩

/-- Pushing the route of a fresh, slash-free, depth-≥1 FQN preserves the
invariant. -/
theorem Inv_push {s : GenState} {fqn : String} {d : DeclData} (hinv : Inv s)
    (hnv : fqn ∉ s.processedFqns) (hsf : '/' ∉ fqn.toList)
    (hne : (jsSplit '.' fqn).2 ≠ []) :
    Inv ⟨fqn :: s.processedFqns, s.paths ++ [mkEntry fqn d]⟩ := by
  have hkey : keyPair (mkEntry fqn d) = pairOfFqn fqn := rfl
  constructor
  · rw [List.map_append]
    rw [List.nodup_append]
    refine ⟨hinv.1, List.nodup_singleton _, ?_⟩
    intro a ha hb
    rcases List.mem_map.1 ha with ⟨e, he, rfl⟩
    simp only [List.map_cons, List.map_nil, List.mem_singleton] at hb
    obtain ⟨g, hgv, hgf, hg2, hk⟩ := hinv.2 e he
    rw [hkey] at hb
    rw [hk] at hb
    have : g = fqn := pairOfFqn_inj hgf hsf hg2 hne hb
    exact hnv (this ▸ hgv)
  · intro e he
    rcases List.mem_append.1 he with h | h
    · obtain ⟨g, hgv, hgf, hg2, hk⟩ := hinv.2 e h
      exact ⟨g, List.mem_cons_of_mem _ hgv, hgf, hg2, hk⟩
    · rcases List.mem_singleton.1 h with rfl
      exact ⟨fqn, List.mem_cons_self _ _, hsf, hne, hkey⟩

/-- The FQN of a processed declaration item comes from
`fullyQualifiedName`. -/
theorem processDeclItem_fqn {st : Store} {ifuel mi : Nat} {it : DeclItem}
    (h : processDeclItem st ifuel mi = some it) :
    it.fqn = fullyQualifiedName st mi := by
  unfold processDeclItem at h
  split at h
  · cases h
  · split at h
    · cases h
    · cases h
      rfl

/-- In a store with slash-free FQNs, every item `processDeclarations`
produces has a slash-free FQN. -/
theorem processDeclarations_slashFree {st : Store}
    (hsf : ∀ n, '/' ∉ (st.declFqn n).toList) (ifuel : Nat)
    (ms : List Nat) :
    ∀ it ∈ processDeclarations st ifuel ms, '/' ∉ it.fqn.toList := by
  intro it hit
  rcases List.mem_filterMap.1 hit with ⟨mi, _, hmi⟩
  rw [processDeclItem_fqn hmi]
  unfold fullyQualifiedName
  split
  · decide
  · exact hsf mi

/-- In a store with slash-free FQNs, every declaration of an assembled
module has a slash-free FQN. -/
theorem getModuleData_slashFree {st : Store}
    (hsf : ∀ n, '/' ∉ (st.declFqn n).toList) (ifuel : Nat) {name : String}
    {md : ModuleData} (h : getModuleData st ifuel name = some md) :
    ∀ it ∈ md.declarations, '/' ∉ it.fqn.toList := by
  unfold getModuleData at h
  split at h
  · cases h
  · cases h
    exact processDeclarations_slashFree hsf ifuel _

/-- `processRec` preserves the route-set invariant. -/
theorem processRec_Inv (st : Store) (ifuel : Nat)
    (hsf : ∀ n, '/' ∉ (st.declFqn n).toList) :
    ∀ (fuel : Nat) (fqn : String) (s : GenState),
      '/' ∉ fqn.toList → Inv s → Inv (processRec st ifuel fuel fqn s) := by
  intro fuel
  induction fuel with
  | zero =>
    intro fqn s hfq hinv
    unfold processRec
    split
    · exact hinv
    split
    · exact Inv_mark fqn hinv
    split
    · exact Inv_mark fqn hinv
    split
    · exact Inv_push hinv (by assumption) hfq (by assumption)
    · exact Inv_push hinv (by assumption) hfq (by assumption)
  | succ f ih =>
    intro fqn s hfq hinv
    unfold processRec
    split
    · exact hinv
    split
    · exact Inv_mark fqn hinv
    split
    · exact Inv_mark fqn hinv
    split
    · next declData heq hne hcat =>
      refine foldl_preserve Inv (fun x => '/' ∉ x.toList) _ ?_ _ _ ?_
        (Inv_push hinv (by assumption) hfq (by assumption))
      · intro s' x hx hs'
        exact ih x s' hx hs'
      · intro x hx
        rcases List.mem_map.1 hx with ⟨it, hit, rfl⟩
        exact processDeclarations_slashFree hsf ifuel _ it hit
    · exact Inv_push hinv (by assumption) hfq (by assumption)

/-- The whole enumeration establishes the route-set invariant. -/
theorem generateFromModules_Inv (st : Store) (fuel ifuel : Nat)
    (mods : List ModuleEntry) (hsf : ∀ n, '/' ∉ (st.declFqn n).toList) :
    Inv (generateFromModules st fuel ifuel mods) := by
  refine foldl_preserve Inv (fun _ => True) _ ?_ _ _ (fun _ _ => trivial)
    ⟨List.nodup_nil, by intro e he; cases he⟩
  intro s m _ hs
  unfold processModule
  split
  · exact hs
  · next moduleData heq =>
    refine foldl_preserve Inv (fun d => '/' ∉ d.fqn.toList) _ ?_ _ _ ?_ hs
    · intro s' d hd hs'
      exact processRec_Inv st ifuel hsf fuel d.fqn s' hd hs'
    · intro d hd
      exact getModuleData_slashFree hsf ifuel heq d (List.mem_of_mem_filter hd)

/-- C1: in a store whose FQNs are slash-free (as Zig identifiers are), the
enumeration emits pairwise-distinct route keys — at most one RouteDescriptor
per distinct FQN — because an FQN found in the process-wide visited set is
skipped entirely, including its recursive descent (second conjunct, for any
state and any fuel). -/
theorem route_global_dedup (st : Store) (fuel ifuel : Nat)
    (mods : List ModuleEntry) (hsf : ∀ n, '/' ∉ (st.declFqn n).toList) :
    ((generateFromModules st fuel ifuel mods).paths.map keyPair).Nodup ∧
    ∀ (fqn : String) (s : GenState), fqn ∈ s.processedFqns →
      processRec st ifuel fuel fqn s = s := by
  refine ⟨(generateFromModules_Inv st fuel ifuel mods hsf).1, ?_⟩
  intro fqn s hmem
  unfold processRec
  split
  · rfl
  · next hn => exact absurd hmem hn

theorem route_global_dedup_witness :
    (((generateFromModules exampleStore 3 3 (updateModuleList exampleStore)).paths.map
        keyPair).Nodup ∧
      processRec exampleStore 3 3 "a.f" ⟨["a.f"], []⟩ = ⟨["a.f"], []⟩) := by
  have hsf : ∀ n, '/' ∉ (exampleStore.declFqn n).toList := by
    intro n
    show '/' ∉ (if n = 2 then "a.f" else if n = 1 then "a" else "").toList
    split
    · decide
    split
    · decide
    · decide
  exact ⟨(route_global_dedup exampleStore 3 3 (updateModuleList exampleStore) hsf).1,
    (route_global_dedup exampleStore 3 3 (updateModuleList exampleStore) hsf).2
      "a.f" ⟨["a.f"], []⟩ (by decide)⟩

/-! ## C2: decimal printing round-trips -/

theorem digitChar_toNat (d : Nat) (h : d < 10) : (digitChar d).toNat = 48 + d := by
  interval_cases d <;> decide

/-- `toDecAux` with enough fuel is `toDec` with the accumulator
appended. -/
theorem toDecAux_eq (n : Nat) : ∀ (fuel : Nat) (acc : List Char),
    n < fuel → toDecAux fuel n acc = toDec n ++ acc := by
  induction n using Nat.strong_induction_on with
  | _ n ih =>
    intro fuel acc hlt
    obtain ⟨f, rfl⟩ : ∃ f, fuel = f + 1 := ⟨fuel - 1, by omega⟩
    by_cases h10 : n < 10
    · show (if n < 10 then digitChar n :: acc
        else toDecAux f (n / 10) (digitChar (n % 10) :: acc)) = toDec n ++ acc
      rw [if_pos h10]
      unfold toDec toDecAux
      rw [if_pos h10]
      rfl
    · have hdiv : n / 10 < n := Nat.div_lt_self (by omega) (by omega)
      show (if n < 10 then digitChar n :: acc
        else toDecAux f (n / 10) (digitChar (n % 10) :: acc)) = toDec n ++ acc
      rw [if_neg h10]
      rw [ih (n / 10) hdiv f _ (by omega)]
      have hn : toDec n = toDec (n / 10) ++ [digitChar (n % 10)] := by
        show toDecAux (n + 1) n [] = _
        unfold toDecAux
        rw [if_neg h10]
        rw [ih (n / 10) hdiv n _ (by omega)]
      rw [hn, List.append_assoc]
      rfl

/-- Splitting off the last decimal digit. -/
theorem toDec_split (n : Nat) (h10 : ¬n < 10) :
    toDec n = toDec (n / 10) ++ [digitChar (n % 10)] := by
  show toDecAux (n + 1) n [] = _
  unfold toDecAux
  rw [if_neg h10]
  exact toDecAux_eq (n / 10) n _ (by omega)

theorem ofDec_toDec_aux (n : Nat) : ∀ i : Nat,
    (toDec n).foldl (fun acc c => acc * 10 + (c.toNat - 48)) i =
      i * 10 ^ (toDec n).length + n := by
  induction n using Nat.strong_induction_on with
  | _ n ih =>
    intro i
    by_cases h10 : n < 10
    · have h1 : toDec n = [digitChar n] := by
        unfold toDec toDecAux
        rw [if_pos h10]
      rw [h1]
      simp [digitChar_toNat n h10]
    · have hdiv : n / 10 < n := Nat.div_lt_self (by omega) (by omega)
      rw [toDec_split n h10, List.foldl_append, ih (n / 10) hdiv i]
      simp only [List.foldl_cons, List.foldl_nil, List.length_append,
        List.length_singleton]
      rw [digitChar_toNat (n % 10) (by omega)]
      have hmod : 48 + n % 10 - 48 = n % 10 := by omega
      rw [hmod, pow_succ]
      have hdm : 10 * (n / 10) + n % 10 = n := by omega
      calc (i * 10 ^ (toDec (n / 10)).length + n / 10) * 10 + n % 10
          = i * (10 ^ (toDec (n / 10)).length * 10) + (10 * (n / 10) + n % 10) := by
            ring
        _ = i * (10 ^ (toDec (n / 10)).length * 10) + n := by rw [hdm]

/-- `BigInt(x.toString())` is the identity: parsing the printed decimal
digits returns the same 64-bit value. -/
theorem ofDec_toDec (n : Nat) : ofDec (toDec n) = n := by
  unfold ofDec
  rw [ofDec_toDec_aux n 0]
  simp

theorem take_bigintPrefix (l : List Char) :
    (bigintPrefix ++ l).take 11 = bigintPrefix := by
  have h : bigintPrefix.length = 11 := by decide
  rw [← h]
  simp

theorem drop_bigintPrefix (l : List Char) :
    (bigintPrefix ++ l).drop 11 = l := by
  have h : bigintPrefix.length = 11 := by decide
  rw [← h]
  simp

/-- `makeSerializable` never produces `undefined` from defined data. -/
theorem make_ne_undef {v : JsVal} (h : hasUndef v = false) :
    makeSerializable v ≠ .vundef := by
  cases v <;> simp_all [makeSerializable, hasUndef]

/-! ## C2: the serialization round-trip -/

mutual

theorem restore_make_val : ∀ v : JsVal, hasBadString v = false →
    hasUndef v = false → restoreBigInts (jsonRoundTrip (makeSerializable v)) = v
  | .vnull, _, _ => rfl
  | .vundef, _, hU => absurd hU (by simp [hasUndef])
  | .vbool _, _, _ => rfl
  | .vnum _, _, _ => rfl
  | .vstr s, hB, _ => by
    have hs : ¬s.take 11 = bigintPrefix := by
      simpa [hasBadString] using hB
    simp [makeSerializable, jsonRoundTrip, restoreBigInts, restoreStr, hs]
  | .vbigint n, _, _ => by
    simp [makeSerializable, jsonRoundTrip, restoreBigInts, restoreStr,
      take_bigintPrefix, drop_bigintPrefix, ofDec_toDec]
  | .varr xs, hB, hU => by
    have h1 : hasBadStringList xs = false := by simpa [hasBadString] using hB
    have h2 : hasUndefList xs = false := by simpa [hasUndef] using hU
    simp only [makeSerializable, jsonRoundTrip, restoreBigInts]
    rw [restore_make_list xs h1 h2]
  | .vobj fs, hB, hU => by
    have h1 : hasBadStringFields fs = false := by simpa [hasBadString] using hB
    have h2 : hasUndefFields fs = false := by simpa [hasUndef] using hU
    simp only [makeSerializable, jsonRoundTrip, restoreBigInts]
    rw [restore_make_fields fs h1 h2]
  termination_by structural v => v

theorem restore_make_list : ∀ l : List JsVal, hasBadStringList l = false →
    hasUndefList l = false →
    restoreBigIntsList (jsonRoundTripList (makeSerializableList l)) = l
  | [], _, _ => rfl
  | x :: xs, hB, hU => by
    have hB' := (by simpa [hasBadStringList] using hB :
      hasBadString x = false ∧ hasBadStringList xs = false)
    have hU' := (by simpa [hasUndefList] using hU :
      hasUndef x = false ∧ hasUndefList xs = false)
    simp only [makeSerializableList, jsonRoundTripList, restoreBigIntsList]
    rw [restore_make_val x hB'.1 hU'.1, restore_make_list xs hB'.2 hU'.2]
  termination_by structural l => l

theorem restore_make_fields : ∀ l : List (String × JsVal),
    hasBadStringFields l = false → hasUndefFields l = false →
    restoreBigIntsFields (jsonRoundTripFields (makeSerializableFields l)) = l
  | [], _, _ => rfl
  | (k, v) :: fs, hB, hU => by
    have hB' := (by simpa [hasBadStringFields] using hB :
      hasBadString v = false ∧ hasBadStringFields fs = false)
    have hU' := (by simpa [hasUndefFields] using hU :
      hasUndef v = false ∧ hasUndefFields fs = false)
    have hnu : ¬makeSerializable v = .vundef := make_ne_undef hU'.1
    simp only [makeSerializableFields, jsonRoundTripFields, if_neg hnu,
      restoreBigIntsFields]
    rw [restore_make_val v hB'.1 hU'.1, restore_make_fields fs hB'.2 hU'.2]
  termination_by structural l => l

end

/-! ## C2: the enumerator's routes never contain `undefined` -/

theorem hasUndef_vobj (fs : List (String × JsVal)) :
    hasUndef (.vobj fs) = hasUndefFields fs := rfl

theorem hasUndef_varr (xs : List JsVal) :
    hasUndef (.varr xs) = hasUndefList xs := rfl

theorem hasUndefFields_nil : hasUndefFields [] = false := rfl

theorem hasUndefFields_cons (k : String) (v : JsVal) (fs : List (String × JsVal)) :
    hasUndefFields ((k, v) :: fs) = (hasUndef v || hasUndefFields fs) := rfl

theorem hasUndefList_nil : hasUndefList [] = false := rfl

theorem hasUndefList_cons (v : JsVal) (vs : List JsVal) :
    hasUndefList (v :: vs) = (hasUndef v || hasUndefList vs) := rfl

theorem hasUndef_vstr (s : List Char) : hasUndef (.vstr s) = false := rfl

theorem hasUndef_vnum (n : Int) : hasUndef (.vnum n) = false := rfl

theorem hasUndef_vbool (b : Bool) : hasUndef (.vbool b) = false := rfl

theorem hasUndef_vbigint (n : Nat) : hasUndef (.vbigint n) = false := rfl

theorem hasUndefList_map_vnum (l : List Nat) :
    hasUndefList (l.map (fun n : Nat => JsVal.vnum (n : Int))) = false := by
  induction l with
  | nil => rfl
  | cons x xs ih => simp [hasUndefList_cons, hasUndef_vnum, ih]

theorem hasUndefList_map_vbigint (l : List Nat) :
    hasUndefList (l.map (fun n => JsVal.vbigint n)) = false := by
  induction l with
  | nil => rfl
  | cons x xs ih => simp [hasUndefList_cons, hasUndef_vbigint, ih]

theorem hasUndefFields_append (A B : List (String × JsVal)) :
    hasUndefFields (A ++ B) = (hasUndefFields A || hasUndefFields B) := by
  induction A with
  | nil => simp [hasUndefFields_nil]
  | cons x xs ih =>
    cases x with
    | mk k v => simp [hasUndefFields_cons, ih, Bool.or_assoc]

theorem declDataToJs_noUndef (d : DeclData) : hasUndef (declDataToJs d) = false := by
  unfold declDataToJs
  rw [hasUndef_vobj]
  cases d.protoHtml <;> cases d.doctestHtml <;> cases d.errorSetBaseDecl <;>
    simp [optField, hasUndefFields_append, hasUndefFields_cons, hasUndefFields_nil,
      hasUndef_vstr, hasUndef_vnum, hasUndef_vbool, hasUndef_varr,
      hasUndefList_map_vnum, hasUndefList_map_vbigint]

theorem routeEntryToJs_noUndef (e : RouteEntry) :
    hasUndef (routeEntryToJs e) = false := by
  unfold routeEntryToJs
  rw [hasUndef_vobj]
  simp [hasUndefFields_cons, hasUndefFields_nil, hasUndef_vobj,
    hasUndef_vstr, declDataToJs_noUndef]

theorem routesToJs_noUndef (l : List RouteEntry) :
    hasUndef (routesToJs l) = false := by
  unfold routesToJs
  rw [hasUndef_varr]
  induction l with
  | nil => rfl
  | cons e es ih => simp [hasUndefList_cons, routeEntryToJs_noUndef, ih]

/-! ## C2: claim theorems -/

/-- C2, as stated, is false: the enumerator can produce a route sequence
that does not survive the round-trip.  On `evilStore` the sole route's
documentation string is `"__bigint__:0"` — ordinary store-supplied text —
and `restoreBigInts` turns it into the BigInt `0` on load, so
deserialization does not return the serialized value. -/
theorem cache_roundtrip_counterexample :
    restoreBigInts (jsonRoundTrip (makeSerializable (routesToJs
        (generateFromModules evilStore 3 3 (updateModuleList evilStore)).paths))) ≠
      routesToJs (generateFromModules evilStore 3 3 (updateModuleList evilStore)).paths := by
  decide

/-- C2 (amended): for every route sequence produced by the enumerator in
which no string value itself begins with the reserved tag `"__bigint__:"`,
deserializing the serialization returns the same value: every BigInt (the
64-bit error-set node identifiers) is encoded as a tagged string — the
fixed prefix followed by its decimal digits — and decoded back to the exact
same value, arrays and records round-trip structurally, and `undefined`
never occurs in enumerator output. -/
theorem cache_roundtrip_on_untagged_routes (st : Store) (fuel ifuel : Nat)
    (mods : List ModuleEntry)
    (h : hasBadString (routesToJs
      (generateFromModules st fuel ifuel mods).paths) = false) :
    restoreBigInts (jsonRoundTrip (makeSerializable
        (routesToJs (generateFromModules st fuel ifuel mods).paths))) =
      routesToJs (generateFromModules st fuel ifuel mods).paths :=
  restore_make_val _ h (routesToJs_noUndef _)

theorem cache_roundtrip_on_untagged_routes_witness :
    hasBadString (routesToJs
        (generateFromModules bigStore 3 3 (updateModuleList bigStore)).paths) = false ∧
    ((generateFromModules bigStore 3 3 (updateModuleList bigStore)).paths.map
        (fun e => e.declData.errorSetNodes)) = [[18446744073709551615]] ∧
    restoreBigInts (jsonRoundTrip (makeSerializable
        (routesToJs (generateFromModules bigStore 3 3 (updateModuleList bigStore)).paths))) =
      routesToJs (generateFromModules bigStore 3 3 (updateModuleList bigStore)).paths :=
  ⟨by decide, by decide,
   cache_roundtrip_on_untagged_routes bigStore 3 3 (updateModuleList bigStore) (by decide)⟩

/-! ## C10: WASM unwrap bounds -/

/-- An 8-byte zero memory. -/
def mem8 : WasmMem := ⟨8, fun _ => 0⟩

/-- C10, as stated, is false on one point: the unwrap operations are not
total.  The packed value `2^32 + 1` (pointer 1, length 1) is nonzero-length
and in bounds, yet `new Uint32Array(buffer, 1, 1)` throws a `RangeError`
because the byte offset is not a multiple of 4 — `unwrapSlice32` neither
returns an array nor is an out-of-bounds case. -/
theorem unwrap_total_counterexample :
    unwrapSlice32 mem8 (2 ^ 32 + 1) = none ∧
    unwrapLen (2 ^ 32 + 1) ≠ 0 ∧
    unwrapPtr (2 ^ 32 + 1) + unwrapLen (2 ^ 32 + 1) * 4 ≤ mem8.size := by
  decide

/-- C10 (amended): for every packed pointer/length value, a zero decoded
length yields `""` / empty arrays; an out-of-range extent yields the
error-indicator string / empty arrays instead of an out-of-bounds view; a
suitably aligned pointer never throws; and no unwrapper ever reads outside
the store's memory — the results depend only on the bytes below the buffer
size.  (Totality holds except for a nonzero-length, in-bounds, misaligned
pointer, where the typed-array constructor throws.) -/
theorem unwrap_bounds (dec : List Nat → String) (m m' : WasmMem) (b : Nat)
    (hsz : m.size = m'.size) (hag : ∀ a, a < m.size → m.byteAt a = m'.byteAt a) :
    (unwrapLen b = 0 →
      unwrapString dec m b = "" ∧ unwrapSlice32 m b = some [] ∧
        unwrapSlice64 m b = some []) ∧
    (unwrapLen b ≠ 0 → unwrapPtr b + unwrapLen b > m.size →
      unwrapString dec m b = "[Error: String OOB]") ∧
    (unwrapLen b ≠ 0 → unwrapPtr b + unwrapLen b * 4 > m.size →
      unwrapSlice32 m b = some []) ∧
    (unwrapLen b ≠ 0 → unwrapPtr b + unwrapLen b * 8 > m.size →
      unwrapSlice64 m b = some []) ∧
    (unwrapPtr b % 4 = 0 → unwrapSlice32 m b ≠ none) ∧
    (unwrapPtr b % 8 = 0 → unwrapSlice64 m b ≠ none) ∧
    unwrapString dec m b = unwrapString dec m' b ∧
    unwrapSlice32 m b = unwrapSlice32 m' b ∧
    unwrapSlice64 m b = unwrapSlice64 m' b := by
  refine ⟨?_, ?_, ?_, ?_, ?_, ?_, ?_, ?_, ?_⟩
  · intro h0
    simp [unwrapString, unwrapSlice32, unwrapSlice64, h0]
  · intro h0 hoob
    simp [unwrapString, h0, hoob]
  · intro h0 hoob
    simp [unwrapSlice32, h0, hoob]
  · intro h0 hoob
    simp [unwrapSlice64, h0, hoob]
  · intro hal
    unfold unwrapSlice32
    split
    · simp
    · split
      · simp
      · simp [hal]
  · intro hal
    unfold unwrapSlice64
    split
    · simp
    · split
      · simp
      · simp [hal]
  · unfold unwrapString
    rw [← hsz]
    split
    · rfl
    · split
      · rfl
      · next h0 hoob =>
        have hb : bytesAt m (unwrapPtr b) (unwrapLen b) =
            bytesAt m' (unwrapPtr b) (unwrapLen b) := by
          unfold bytesAt
          refine List.map_congr_left ?_
          intro j hj
          rw [List.mem_range] at hj
          rw [hag]
          omega
        rw [hb]
  · unfold unwrapSlice32
    rw [← hsz]
    split
    · rfl
    · split
      · rfl
      · split
        · next h0 hoob hal =>
          have hw : ∀ j ∈ List.range (unwrapLen b),
              word32At m (unwrapPtr b + 4 * j) = word32At m' (unwrapPtr b + 4 * j) := by
            intro j hj
            rw [List.mem_range] at hj
            unfold word32At
            rw [hag, hag, hag, hag] <;> omega
          rw [List.map_congr_left hw]
        · rfl
  · unfold unwrapSlice64
    rw [← hsz]
    split
    · rfl
    · split
      · rfl
      · split
        · next h0 hoob hal =>
          have hw : ∀ j ∈ List.range (unwrapLen b),
              word64At m (unwrapPtr b + 8 * j) = word64At m' (unwrapPtr b + 8 * j) := by
            intro j hj
            rw [List.mem_range] at hj
            unfold word64At word32At
            rw [hag, hag, hag, hag, hag, hag, hag, hag] <;> omega
          rw [List.map_congr_left hw]
        · rfl

theorem unwrap_bounds_witness :
    mem8.size = mem8.size ∧ (∀ a, a < mem8.size → mem8.byteAt a = mem8.byteAt a) ∧
    unwrapLen (2 ^ 32 * 0 + 3) = 0 ∧
    (unwrapString (fun _ => "x") mem8 (2 ^ 32 * 0 + 3) = "" ∧
      unwrapSlice32 mem8 (2 ^ 32 * 0 + 3) = some [] ∧
      unwrapSlice64 mem8 (2 ^ 32 * 0 + 3) = some []) ∧
    unwrapLen (2 ^ 32 * 9 + 4) ≠ 0 ∧
    unwrapPtr (2 ^ 32 * 9 + 4) + unwrapLen (2 ^ 32 * 9 + 4) > mem8.size ∧
    unwrapString (fun _ => "x") mem8 (2 ^ 32 * 9 + 4) = "[Error: String OOB]" ∧
    unwrapPtr (2 ^ 32 * 2) % 4 = 0 ∧ unwrapSlice32 mem8 (2 ^ 32 * 2) ≠ none :=
  ⟨rfl, fun _ _ => rfl, by decide,
   (unwrap_bounds (fun _ => "x") mem8 mem8 (2 ^ 32 * 0 + 3) rfl
      (fun _ _ => rfl)).1 (by decide),
   by decide, by decide,
   (unwrap_bounds (fun _ => "x") mem8 mem8 (2 ^ 32 * 9 + 4) rfl
      (fun _ _ => rfl)).2.1 (by decide) (by decide),
   by decide,
   (unwrap_bounds (fun _ => "x") mem8 mem8 (2 ^ 32 * 2) rfl
      (fun _ _ => rfl)).2.2.2.2.1 (by decide)⟩

theorem record_original_vs_target_invariants_witness :
    exampleDeclData.name = declIndexName exampleStore 2 ∧
    exampleDeclData.fqn = fullyQualifiedName exampleStore 2 ∧
    exampleDeclData.targetFqn = fullyQualifiedName exampleStore exampleDeclData.index ∧
    exampleDeclData.category = exampleStore.categorize exampleDeclData.index ∧
    (exampleDeclData.isAlias = false → exampleDeclData.fqn = exampleDeclData.targetFqn) :=
  record_original_vs_target_invariants exampleStore 1 2 exampleDeclData (by decide)

end ZigDocs
